import Mathlib

/-!
Verification of the page-imposition engine in `merge_pdf_to_one_page.py`.

The embedding below translates the Python source into Lean:
* paper constants and `get_diagonal` / the size table (`PAPER_SIZES`),
* Python's `round` (round-half-to-even) on rationals,
* the ratio-band classification in `pdf_merger` (lines 78-133),
* the tiling-order generator `create_matrix` (lines 190-201),
* the compositing loops (fill mode, lines 144-154; normal mode, lines
  156-178) and the up-front validation (lines 44-57).

Floating-point values of the source are modelled as rationals; the two
irrational square roots (page diagonal and sheet diagonal) enter as an
abstract function parameter `sqrtFn`, so every theorem quantifies over the
diagonals exactly as the specification does.
-/

namespace PdfMerge

/-- The two target paper sizes of the `PAPER_SIZES` table. -/
inductive Size where
  | A4
  | A3
deriving DecidableEq

/-- `PAPER_SIZES[s]['width']`. -/
def paperWidth : Size → ℤ
  | .A4 => 595
  | .A3 => 842

/-- `PAPER_SIZES[s]['height']`. -/
def paperHeight : Size → ℤ
  | .A4 => 842
  | .A3 => 1190

/-- Lines 63-69: only the literal string `"A4"` selects A4; every other
string falls into the `else` branch, which overwrites `new_size` with `'A3'`. -/
def parseSize (s : String) : Size :=
  if s = "A4" then Size.A4 else Size.A3

/-- Python's `round` to an integer: round half to even (banker's rounding). -/
def roundHalfEven (q : ℚ) : ℤ :=
  if q - ⌊q⌋ < 1/2 then ⌊q⌋
  else if 1/2 < q - ⌊q⌋ then ⌊q⌋ + 1
  else if Even ⌊q⌋ then ⌊q⌋ else ⌊q⌋ + 1

/-- Python's `round(q, n)`: round to `n` decimal places. -/
def roundDec (q : ℚ) (n : ℕ) : ℚ :=
  (roundHalfEven (q * 10 ^ n) : ℚ) / 10 ^ n

/-- The five shrink levels; they label the five ratio bands of lines 87-129. -/
inductive ShrinkLevel where
  | ONE_STEP
  | TWO_STEP
  | THREE_STEP
  | FOUR_STEP
  | FIVE_STEP
deriving DecidableEq

/-- The `orientation` variable set alongside each band. -/
inductive Orientation where
  | portrait
  | landscape
deriving DecidableEq

/-- `create_matrix(n, m)` (lines 190-201): for `i` in `range(m, 0, -1)`,
for `j` in `range(n)`, append `[j, i-1]`. -/
def create_matrix (n m : ℕ) : List (ℕ × ℕ) :=
  (List.range m).reverse.flatMap (fun r => (List.range n).map (fun c => (c, r)))

/-- The data each classification band produces: which band fired
(`level`), the `indices` tiling order, and the `orientation`. -/
structure Layout where
  level : ShrinkLevel
  indices : List (ℕ × ℕ)
  orientation : Orientation
deriving DecidableEq

/-- The `ValueError`s raised by `pdf_merger`, by site:
line 46 (no pages), line 57 (dimension mismatch, carrying the 1-based page
number, the offending dimensions and the first page's), line 133
(unsupported conversion, carrying both diagonals). -/
inductive MergeError where
  | emptyDocument
  | inconsistentPageSize (index : ℕ) (actualW actualH expectedW expectedH : ℤ)
  | unsupportedPageSize (inputDiagonal outputDiagonal : ℚ)
deriving DecidableEq

/-- The band chain of lines 87-133, applied to page diagonal `d` and the
(possibly upgraded) sheet diagonal `t`. -/
def classifyBands (d t : ℚ) (force_portrait : Bool) : Except MergeError Layout :=
  if roundDec (d / t) 1 = 7/10 then
    if force_portrait then .ok ⟨.ONE_STEP, create_matrix 1 2, .portrait⟩
    else .ok ⟨.ONE_STEP, create_matrix 2 1, .landscape⟩
  else if roundDec (d / t) 1 = 5/10 then
    .ok ⟨.TWO_STEP, create_matrix 2 2, .portrait⟩
  else if roundDec (d / t) 2 = 35/100 then
    .ok ⟨.THREE_STEP, create_matrix 4 2, .landscape⟩
  else if roundDec (d / t) 2 = 25/100 then
    .ok ⟨.FOUR_STEP, create_matrix 4 4, .portrait⟩
  else if roundDec (d / t) 2 = 18/100 then
    .ok ⟨.FIVE_STEP, create_matrix 8 4, .landscape⟩
  else
    .error (.unsupportedPageSize d t)

/-- Lines 78-133: the same-size pre-check (ratio rounding to `1.0` against
an A4 target replaces the sheet dimensions and diagonal with A3's before the
band chain runs; against A3 only a message is printed and the chain runs on
the unchanged diagonal), followed by `classifyBands`; the resulting sheet
width and height accompany the layout. -/
def classify (d : ℚ) (size : Size) (sheetDiag : Size → ℚ) (force_portrait : Bool) :
    Except MergeError (Layout × ℤ × ℤ) :=
  if roundDec (d / sheetDiag size) 1 = 1 ∧ size = Size.A4 then
    (classifyBands d (sheetDiag Size.A3) force_portrait).map
      (fun l => (l, paperWidth Size.A3, paperHeight Size.A3))
  else
    (classifyBands d (sheetDiag size) force_portrait).map
      (fun l => (l, paperWidth size, paperHeight size))

/-- One call to `mergeTranslatedPage`: the index of the merged source page
and the translation offsets passed alongside it (the call never rescales). -/
structure Placement where
  page : ℕ
  x : ℤ
  y : ℤ
deriving DecidableEq

/-- The mutable state of the normal-mode loop (lines 161-176): the cell
cursor `i`, the sheet under construction `cur`, the sheets already handed to
the writer, and the `full_page` flag. -/
structure NormalState where
  i : ℕ
  cur : List Placement
  sheets : List (List Placement)
  full : Bool
deriving DecidableEq

/-- One iteration of the normal-mode loop body (lines 162-176): merge page
`page` at `indices[i]`, advance `i`, and when the grid is exhausted emit the
sheet and start a blank one. -/
def normalStep (indices : List (ℕ × ℕ)) (pw ph : ℤ) (s : NormalState) (page : ℕ) :
    NormalState :=
  let c := indices.getD s.i (0, 0)
  let cur := s.cur ++ [⟨page, c.1 * pw, c.2 * ph⟩]
  if s.i + 1 > indices.length - 1 then
    ⟨0, [], s.sheets ++ [cur], true⟩
  else
    ⟨s.i + 1, cur, s.sheets, false⟩

/-- Normal mode (lines 156-178): fold the loop body over the page indices
starting from `i = 0` and an empty sheet, then flush a partially filled
final sheet (`if not full_page`).  The initial `full` value is never read
when at least one page exists, which the caller's line 45 check ensures. -/
def composeNormal (numPages : ℕ) (indices : List (ℕ × ℕ)) (pw ph : ℤ) :
    List (List Placement) :=
  let s := (List.range numPages).foldl (normalStep indices pw ph) ⟨0, [], [], true⟩
  if s.full then s.sheets else s.sheets ++ [s.cur]

/-- Fill mode (lines 144-154): merge page 0 once per grid cell onto a single
sheet, then add that sheet. -/
def composeFill (indices : List (ℕ × ℕ)) (pw ph : ℤ) : List (List Placement) :=
  [indices.map (fun c => ⟨0, c.1 * pw, c.2 * ph⟩)]

/-- The branch on line 144: fill mode only when `fill` is set and exactly
one page exists, otherwise the normal loop runs. -/
def compose (fill : Bool) (numPages : ℕ) (indices : List (ℕ × ℕ)) (pw ph : ℤ) :
    List (List Placement) :=
  if fill ∧ numPages = 1 then composeFill indices pw ph
  else composeNormal numPages indices pw ph

/-- Lines 53-57: walk the pages with their index, rounding each page's
media-box dimensions and comparing them to the first page's rounded
dimensions; the first mismatch raises, carrying the 1-based page number. -/
def validatePages : List (ℚ × ℚ) → ℤ → ℤ → ℕ → Option MergeError
  | [], _, _, _ => none
  | q :: rest, pw, ph, i =>
    if roundHalfEven q.1 ≠ pw ∨ roundHalfEven q.2 ≠ ph then
      some (.inconsistentPageSize (i + 1) (roundHalfEven q.1) (roundHalfEven q.2) pw ph)
    else
      validatePages rest pw ph (i + 1)

/-- Lines 139-142 and 173-176: a portrait sheet is created as
`(new_width, new_height)`, a landscape sheet with the two swapped. -/
def sheetDims (o : Orientation) (nw nh : ℤ) : ℤ × ℤ :=
  match o with
  | .portrait => (nw, nh)
  | .landscape => (nh, nw)

/-- A finalized output sheet: its canvas dimensions and the placements
composited onto it. -/
structure Sheet where
  w : ℤ
  h : ℤ
  placements : List Placement
deriving DecidableEq

/-- `pdf_merger` (lines 40-188), minus the terminal file write: reject an
empty document, round the first page's dimensions, validate all pages
against them, classify by diagonal ratio, and composite.  `sqrtFn` stands
for `math.sqrt`; the page and sheet diagonals are obtained by applying it
to the exact sum of squares, exactly where the source calls it. -/
def pdf_merger (pages : List (ℚ × ℚ)) (new_size : String) (sqrtFn : ℚ → ℚ)
    (fill force_portrait : Bool) : Except MergeError (List Sheet) :=
  match pages with
  | [] => .error .emptyDocument
  | p0 :: _ =>
    match validatePages pages (roundHalfEven p0.1) (roundHalfEven p0.2) 0 with
    | some e => .error e
    | none =>
      match classify
          (sqrtFn ((roundHalfEven p0.1 : ℚ) ^ 2 + (roundHalfEven p0.2 : ℚ) ^ 2))
          (parseSize new_size)
          (fun s => sqrtFn ((paperWidth s : ℚ) ^ 2 + (paperHeight s : ℚ) ^ 2))
          force_portrait with
      | .error e => .error e
      | .ok (layout, nw, nh) =>
        .ok ((compose fill pages.length layout.indices
                (roundHalfEven p0.1) (roundHalfEven p0.2)).map
              (fun pl => ⟨(sheetDims layout.orientation nw nh).1,
                          (sheetDims layout.orientation nw nh).2, pl⟩))

end PdfMerge

namespace PdfMerge

/-! ### Helper lemmas about rounding -/

theorem roundHalfEven_bounds (q : ℚ) :
    q - 1/2 ≤ (roundHalfEven q : ℚ) ∧ (roundHalfEven q : ℚ) ≤ q + 1/2 := by
  have h1 : (⌊q⌋ : ℚ) ≤ q := Int.floor_le q
  have h2 : q < (⌊q⌋ : ℚ) + 1 := Int.lt_floor_add_one q
  unfold roundHalfEven
  split_ifs with ha hb hc <;> constructor <;> push_cast <;> linarith

theorem roundHalfEven_intCast (n : ℤ) : roundHalfEven (n : ℚ) = n := by
  unfold roundHalfEven
  rw [Int.floor_intCast]
  norm_num

/-- If a ratio rounds to `1.0` at one decimal, it lies in `[0.95, 1.05]`. -/
theorem ratio_bounds_of_roundDec_one (r : ℚ) (h : roundDec r 1 = 1) :
    19/20 ≤ r ∧ r ≤ 21/20 := by
  rw [roundDec] at h
  have h10 : (roundHalfEven (r * 10 ^ 1) : ℚ) = 10 := by
    field_simp at h
    exact_mod_cast h
  have hb := roundHalfEven_bounds (r * 10 ^ 1)
  rw [h10] at hb
  norm_num at hb ⊢
  constructor <;> linarith

/-- If a ratio rounds to `1.0` at one decimal, its two-decimal rounding is
at least `0.945`, so none of the three fine bands can match. -/
theorem roundDec_two_large_of_roundDec_one (r : ℚ) (h : roundDec r 1 = 1) :
    189/200 ≤ roundDec r 2 := by
  obtain ⟨hlo, _⟩ := ratio_bounds_of_roundDec_one r h
  have hb := roundHalfEven_bounds (r * 10 ^ 2)
  rw [roundDec]
  rw [div_le_div_iff₀ (by norm_num : (0:ℚ) < 200) (by positivity)] at *
  norm_num at hb ⊢
  linarith

/-! ### Helper lemmas about `create_matrix` -/

theorem create_matrix_zero (n : ℕ) : create_matrix n 0 = [] := by
  simp [create_matrix]

theorem create_matrix_succ (n m : ℕ) :
    create_matrix n (m + 1) =
      ((List.range n).map fun j => (j, m)) ++ create_matrix n m := by
  simp [create_matrix, List.range_succ]

theorem create_matrix_length (n m : ℕ) : (create_matrix n m).length = n * m := by
  induction m with
  | zero => simp [create_matrix_zero]
  | succ m ih => rw [create_matrix_succ]; simp [ih, Nat.mul_succ]; ring

theorem create_matrix_eq_map (n m : ℕ) (hn : 0 < n) :
    create_matrix n m =
      (List.range (n * m)).map (fun k => (k % n, m - 1 - k / n)) := by
  induction m with
  | zero => simp [create_matrix_zero]
  | succ m ih =>
    rw [create_matrix_succ, ih, show n * (m + 1) = n + n * m by ring,
      List.range_add, List.map_append, List.map_map]
    congr 1
    · refine List.map_congr_left fun k hk => ?_
      rw [List.mem_range] at hk
      simp [Nat.mod_eq_of_lt hk, Nat.div_eq_of_lt hk]
    · refine List.map_congr_left fun k _ => ?_
      simp only [Function.comp_apply]
      rw [Nat.add_mod_left, Nat.add_comm n k, Nat.add_div_right _ hn]
      congr 1
      omega

theorem create_matrix_mem_iff (n m : ℕ) (c : ℕ × ℕ) :
    c ∈ create_matrix n m ↔ c.1 < n ∧ c.2 < m := by
  induction m with
  | zero => simp [create_matrix_zero]
  | succ m ih =>
    obtain ⟨a, b⟩ := c
    rw [create_matrix_succ]
    simp only [List.mem_append, List.mem_map, List.mem_range, ih, Prod.mk.injEq]
    constructor
    · rintro (⟨j, hj, rfl, rfl⟩ | ⟨h1, h2⟩) <;> omega
    · rintro ⟨h1, h2⟩
      rcases Nat.lt_succ_iff_lt_or_eq.mp h2 with h | rfl
      · exact Or.inr ⟨h1, h⟩
      · exact Or.inl ⟨a, h1, rfl, rfl⟩

theorem create_matrix_nodup (n m : ℕ) : (create_matrix n m).Nodup := by
  induction m with
  | zero => simp [create_matrix_zero]
  | succ m ih =>
    rw [create_matrix_succ]
    refine List.Nodup.append ?_ ih ?_
    · exact (List.nodup_range n).map fun a b h => congrArg Prod.fst h
    · intro c hc hc'
      rw [create_matrix_mem_iff] at hc'
      simp only [List.mem_map, List.mem_range] at hc
      obtain ⟨j, _, rfl⟩ := hc
      exact absurd hc'.2 (lt_irrefl m)

theorem getD_map_range {α : Type} (N k : ℕ) (f : ℕ → α) (d : α) (h : k < N) :
    ((List.range N).map f).getD k d = f k := by
  rw [List.getD_eq_getElem _ _ (by simpa using h)]
  simp

/-! ### Helper lemmas about the normal-mode loop -/

/-- The placement the normal-mode loop performs for source page `k`: cell
`indices[k mod len(indices)]`, offsets scaled by the page dimensions. -/
def normalPlace (indices : List (ℕ × ℕ)) (pw ph : ℤ) (k : ℕ) : Placement :=
  ⟨k, (indices.getD (k % indices.length) (0, 0)).1 * pw,
      (indices.getD (k % indices.length) (0, 0)).2 * ph⟩

/-- The loop state after the first `p` iterations of the normal-mode loop. -/
def loopState (indices : List (ℕ × ℕ)) (pw ph : ℤ) (p : ℕ) : NormalState :=
  (List.range p).foldl (normalStep indices pw ph) ⟨0, [], [], true⟩

theorem loopState_succ (indices : List (ℕ × ℕ)) (pw ph : ℤ) (p : ℕ) :
    loopState indices pw ph (p + 1) =
      normalStep indices pw ph (loopState indices pw ph p) p := by
  rw [loopState, loopState, List.range_succ, List.foldl_append]
  rfl

theorem composeNormal_eq_loopState (numPages : ℕ) (indices : List (ℕ × ℕ))
    (pw ph : ℤ) :
    composeNormal numPages indices pw ph =
      if (loopState indices pw ph numPages).full
      then (loopState indices pw ph numPages).sheets
      else (loopState indices pw ph numPages).sheets ++
        [(loopState indices pw ph numPages).cur] := rfl

theorem loopState_invariant (indices : List (ℕ × ℕ)) (pw ph : ℤ)
    (hL : 0 < indices.length) (p : ℕ) :
    (loopState indices pw ph p).i = (loopState indices pw ph p).cur.length ∧
    (loopState indices pw ph p).cur.length < indices.length ∧
    (loopState indices pw ph p).full = decide ((loopState indices pw ph p).cur = []) ∧
    (∀ sh ∈ (loopState indices pw ph p).sheets, sh.length = indices.length) ∧
    (loopState indices pw ph p).sheets.length * indices.length +
      (loopState indices pw ph p).cur.length = p ∧
    (loopState indices pw ph p).sheets.flatten ++ (loopState indices pw ph p).cur =
      (List.range p).map (normalPlace indices pw ph) := by
  induction p with
  | zero =>
    simp only [loopState, List.range_zero, List.foldl_nil]
    refine ⟨rfl, by simpa using hL, rfl, ?_, by simp, by simp⟩
    simp
  | succ p ih =>
    obtain ⟨h_i, h_lt, h_full, h_len, h_count, h_flat⟩ := ih
    have hmod : p % indices.length = (loopState indices pw ph p).cur.length := by
      conv_lhs => rw [← h_count]
      rw [Nat.mul_comm, Nat.mul_add_mod]
      exact Nat.mod_eq_of_lt h_lt
    have hplace : (⟨p,
        (indices.getD (loopState indices pw ph p).i (0, 0)).1 * pw,
        (indices.getD (loopState indices pw ph p).i (0, 0)).2 * ph⟩ : Placement) =
        normalPlace indices pw ph p := by
      rw [normalPlace, h_i, hmod]
    rw [loopState_succ, normalStep]
    by_cases hcase : (loopState indices pw ph p).i + 1 > indices.length - 1
    · rw [if_pos hcase, hplace]
      have hcur : (loopState indices pw ph p).cur.length + 1 = indices.length := by
        rw [h_i] at hcase
        omega
      have hlen' : ((loopState indices pw ph p).cur ++
          [normalPlace indices pw ph p]).length = indices.length := by
        simp only [List.length_append, List.length_cons, List.length_nil]
        omega
      refine ⟨rfl, by simpa using hL, rfl, ?_, ?_, ?_⟩
      · intro sh hsh
        rcases List.mem_append.mp hsh with h | h
        · exact h_len sh h
        · rw [List.mem_singleton] at h
          rw [h]
          exact hlen'
      · have hring : ((loopState indices pw ph p).sheets.length + 1) *
            indices.length =
            (loopState indices pw ph p).sheets.length * indices.length +
              indices.length := by ring
        simp only [List.length_append, List.length_cons, List.length_nil,
          Nat.zero_add, Nat.add_zero]
        omega
      · simp only [List.flatten_append, List.flatten_cons, List.flatten_nil,
          List.append_nil]
        rw [← List.append_assoc, h_flat, List.range_succ, List.map_append]
        rfl
    · rw [if_neg hcase, hplace]
      have hne : (loopState indices pw ph p).cur ++
          [normalPlace indices pw ph p] ≠ [] := by simp
      refine ⟨?_, ?_, ?_, h_len, ?_, ?_⟩
      · simp only [List.length_append, List.length_cons, List.length_nil]
        omega
      · rw [h_i] at hcase
        simp only [List.length_append, List.length_cons, List.length_nil]
        omega
      · simp [hne]
      · simp only [List.length_append, List.length_cons, List.length_nil]
        omega
      · rw [← List.append_assoc, h_flat, List.range_succ, List.map_append]
        rfl

theorem composeNormal_flatten (indices : List (ℕ × ℕ)) (pw ph : ℤ)
    (hL : 0 < indices.length) (p : ℕ) :
    (composeNormal p indices pw ph).flatten =
      (List.range p).map (normalPlace indices pw ph) := by
  obtain ⟨h_i, h_lt, h_full, h_len, h_count, h_flat⟩ :=
    loopState_invariant indices pw ph hL p
  rw [composeNormal_eq_loopState]
  by_cases hc : (loopState indices pw ph p).cur = []
  · have hf : (loopState indices pw ph p).full = true := by
      rw [h_full, hc]
      simp
    rw [if_pos hf, ← h_flat, hc, List.append_nil]
  · have hf : (loopState indices pw ph p).full = false := by
      rw [h_full]
      simp [hc]
    rw [if_neg (by simp [hf]), List.flatten_append, List.flatten_cons,
      List.flatten_nil, List.append_nil, h_flat]

theorem composeNormal_sheet_lengths (indices : List (ℕ × ℕ)) (pw ph : ℤ)
    (hL : 0 < indices.length) (p : ℕ) (hp : 0 < p) :
    (composeNormal p indices pw ph).length =
      (p + indices.length - 1) / indices.length ∧
    ∀ sh ∈ composeNormal p indices pw ph, sh ≠ [] := by
  obtain ⟨h_i, h_lt, h_full, h_len, h_count, h_flat⟩ :=
    loopState_invariant indices pw ph hL p
  rw [composeNormal_eq_loopState]
  by_cases hc : (loopState indices pw ph p).cur = []
  · have hf : (loopState indices pw ph p).full = true := by
      rw [h_full, hc]
      simp
    rw [if_pos hf]
    have hc0 : (loopState indices pw ph p).cur.length = 0 := by rw [hc]; rfl
    constructor
    · have hcomm : (loopState indices pw ph p).sheets.length * indices.length =
          indices.length * (loopState indices pw ph p).sheets.length :=
        Nat.mul_comm _ _
      have hsplit : p + indices.length - 1 = (indices.length - 1) +
          indices.length * (loopState indices pw ph p).sheets.length := by
        omega
      rw [hsplit, Nat.add_mul_div_left _ _ hL, Nat.div_eq_of_lt (by omega),
        Nat.zero_add]
    · intro sh hsh
      have := h_len sh hsh
      intro hnil
      rw [hnil] at this
      simp at this
      omega
  · have hf : (loopState indices pw ph p).full = false := by
      rw [h_full]
      simp [hc]
    rw [if_neg (by simp [hf])]
    have hr : 0 < (loopState indices pw ph p).cur.length :=
      List.length_pos.mpr hc
    constructor
    · have hcomm : (loopState indices pw ph p).sheets.length * indices.length =
          indices.length * (loopState indices pw ph p).sheets.length :=
        Nat.mul_comm _ _
      have hring : indices.length * ((loopState indices pw ph p).sheets.length + 1)
          = indices.length * (loopState indices pw ph p).sheets.length +
            indices.length := by ring
      have hsplit : p + indices.length - 1 =
          ((loopState indices pw ph p).cur.length - 1) +
          indices.length * ((loopState indices pw ph p).sheets.length + 1) := by
        omega
      rw [hsplit, Nat.add_mul_div_left _ _ hL, Nat.div_eq_of_lt (by omega)]
      simp only [List.length_append, List.length_cons, List.length_nil,
        Nat.zero_add, Nat.add_zero]
    · intro sh hsh
      rcases List.mem_append.mp hsh with h | h
      · have := h_len sh h
        intro hnil
        rw [hnil] at this
        simp at this
        omega
      · rw [List.mem_singleton] at h
        rw [h]
        exact hc

/-! ### Helper lemmas about validation -/

theorem validatePages_none_iff (pw ph : ℤ) :
    ∀ (ps : List (ℚ × ℚ)) (i : ℕ),
      validatePages ps pw ph i = none ↔
        ∀ q ∈ ps, roundHalfEven q.1 = pw ∧ roundHalfEven q.2 = ph := by
  intro ps
  induction ps with
  | nil => intro i; simp [validatePages]
  | cons q rest ih =>
    intro i
    rw [validatePages]
    by_cases h : roundHalfEven q.1 ≠ pw ∨ roundHalfEven q.2 ≠ ph
    · rw [if_pos h]
      simp only [List.mem_cons]
      constructor
      · intro habs
        exact absurd habs (by simp)
      · intro hall
        obtain ⟨h1, h2⟩ := hall q (Or.inl rfl)
        rcases h with h | h <;> [exact absurd h1 h; exact absurd h2 h]
    · rw [if_neg h]
      push_neg at h
      rw [ih]
      simp only [List.mem_cons]
      constructor
      · intro hall q' hq'
        rcases hq' with rfl | hq'
        · exact h
        · exact hall q' hq'
      · intro hall q' hq'
        exact hall q' (Or.inr hq')

theorem validatePages_first_mismatch (pw ph : ℤ) :
    ∀ (ps : List (ℚ × ℚ)) (i : ℕ),
      (∃ q ∈ ps, roundHalfEven q.1 ≠ pw ∨ roundHalfEven q.2 ≠ ph) →
      ∃ j, j < ps.length ∧
        (roundHalfEven (ps.getD j (0, 0)).1 ≠ pw ∨
          roundHalfEven (ps.getD j (0, 0)).2 ≠ ph) ∧
        validatePages ps pw ph i =
          some (.inconsistentPageSize (i + j + 1)
            (roundHalfEven (ps.getD j (0, 0)).1)
            (roundHalfEven (ps.getD j (0, 0)).2) pw ph) := by
  intro ps
  induction ps with
  | nil => intro i h; simp at h
  | cons q rest ih =>
    intro i hex
    by_cases h : roundHalfEven q.1 ≠ pw ∨ roundHalfEven q.2 ≠ ph
    · refine ⟨0, by simp, by simpa using h, ?_⟩
      rw [validatePages, if_pos h]
      simp
    · have hex' : ∃ q' ∈ rest, roundHalfEven q'.1 ≠ pw ∨ roundHalfEven q'.2 ≠ ph := by
        obtain ⟨q', hq', hm⟩ := hex
        rcases List.mem_cons.mp hq' with rfl | hq'
        · exact absurd hm h
        · exact ⟨q', hq', hm⟩
      obtain ⟨j, hj, hm, heq⟩ := ih (i + 1) hex'
      refine ⟨j + 1, by simpa using Nat.succ_lt_succ hj, ?_, ?_⟩
      · simpa using hm
      · rw [validatePages, if_neg h, heq]
        congr 2
        omega

theorem validatePages_map_round (pw ph : ℤ) :
    ∀ (ps : List (ℚ × ℚ)) (i : ℕ),
      validatePages (ps.map (fun q =>
        ((roundHalfEven q.1 : ℚ), (roundHalfEven q.2 : ℚ)))) pw ph i =
      validatePages ps pw ph i := by
  intro ps
  induction ps with
  | nil => intro i; rfl
  | cons q rest ih =>
    intro i
    simp only [List.map_cons, validatePages, roundHalfEven_intCast, ih]

/-! ### The claims -/

/-- C1: for every source page diagonal `d` and target sheet diagonal `t`,
classification tests the ratio `r = d/t` in order: `round(r,1) = 0.7` yields
ONE_STEP with grid (1,2) portrait when forcePortrait else (2,1) landscape;
`round(r,1) = 0.5` yields TWO_STEP with grid (2,2) portrait;
`round(r,2) = 0.35` yields THREE_STEP with grid (4,2) landscape;
`round(r,2) = 0.25` yields FOUR_STEP with grid (4,4) portrait;
`round(r,2) = 0.18` yields FIVE_STEP with grid (8,4) landscape; the first
match wins, and if no band matches the call fails with an
unsupported-page-size error carrying both diagonals. -/
theorem banded_classification_first_match (d t : ℚ) (fp : Bool) :
    (roundDec (d / t) 1 = 7/10 →
      classifyBands d t fp = .ok ⟨.ONE_STEP,
        if fp then create_matrix 1 2 else create_matrix 2 1,
        if fp then .portrait else .landscape⟩) ∧
    (roundDec (d / t) 1 ≠ 7/10 → roundDec (d / t) 1 = 5/10 →
      classifyBands d t fp = .ok ⟨.TWO_STEP, create_matrix 2 2, .portrait⟩) ∧
    (roundDec (d / t) 1 ≠ 7/10 → roundDec (d / t) 1 ≠ 5/10 →
      roundDec (d / t) 2 = 35/100 →
      classifyBands d t fp = .ok ⟨.THREE_STEP, create_matrix 4 2, .landscape⟩) ∧
    (roundDec (d / t) 1 ≠ 7/10 → roundDec (d / t) 1 ≠ 5/10 →
      roundDec (d / t) 2 ≠ 35/100 → roundDec (d / t) 2 = 25/100 →
      classifyBands d t fp = .ok ⟨.FOUR_STEP, create_matrix 4 4, .portrait⟩) ∧
    (roundDec (d / t) 1 ≠ 7/10 → roundDec (d / t) 1 ≠ 5/10 →
      roundDec (d / t) 2 ≠ 35/100 → roundDec (d / t) 2 ≠ 25/100 →
      roundDec (d / t) 2 = 18/100 →
      classifyBands d t fp = .ok ⟨.FIVE_STEP, create_matrix 8 4, .landscape⟩) ∧
    (roundDec (d / t) 1 ≠ 7/10 → roundDec (d / t) 1 ≠ 5/10 →
      roundDec (d / t) 2 ≠ 35/100 → roundDec (d / t) 2 ≠ 25/100 →
      roundDec (d / t) 2 ≠ 18/100 →
      classifyBands d t fp = .error (.unsupportedPageSize d t)) := by
  refine ⟨?_, ?_, ?_, ?_, ?_, ?_⟩ <;> intros <;> cases fp <;>
    simp_all [classifyBands]

theorem banded_classification_first_match_witness :
    classifyBands 7 10 false = .ok ⟨.ONE_STEP, create_matrix 2 1, .landscape⟩ ∧
    classifyBands 9 10 false = .error (.unsupportedPageSize 9 10) := by
  exact ⟨(banded_classification_first_match 7 10 false).1
      (by norm_num [roundDec, roundHalfEven]),
    (banded_classification_first_match 9 10 false).2.2.2.2.2
      (by norm_num [roundDec, roundHalfEven])
      (by norm_num [roundDec, roundHalfEven])
      (by norm_num [roundDec, roundHalfEven])
      (by norm_num [roundDec, roundHalfEven])
      (by norm_num [roundDec, roundHalfEven])⟩

/-- C2: for every input whose diagonal ratio against the target rounds to
`1.0` at one decimal: if the target is A4, the target is replaced by A3 and
classification continues against the A3 diagonal; if the target is already
A3, no band matches the re-tested ratio and the call fails as unsupported. -/
theorem same_size_upgrade (d : ℚ) (sheetDiag : Size → ℚ) (fp : Bool) :
    (roundDec (d / sheetDiag Size.A4) 1 = 1 →
      classify d Size.A4 sheetDiag fp =
        (classifyBands d (sheetDiag Size.A3) fp).map
          (fun l => (l, paperWidth Size.A3, paperHeight Size.A3))) ∧
    (roundDec (d / sheetDiag Size.A3) 1 = 1 →
      classify d Size.A3 sheetDiag fp =
        .error (.unsupportedPageSize d (sheetDiag Size.A3))) := by
  constructor
  · intro h
    rw [classify, if_pos ⟨h, rfl⟩]
  · intro h
    rw [classify, if_neg (by rintro ⟨-, hc⟩; exact absurd hc (by decide))]
    have h1 : roundDec (d / sheetDiag Size.A3) 1 ≠ 7/10 := by
      rw [h]; norm_num
    have h2 : roundDec (d / sheetDiag Size.A3) 1 ≠ 5/10 := by
      rw [h]; norm_num
    have hge := roundDec_two_large_of_roundDec_one _ h
    have h3 : roundDec (d / sheetDiag Size.A3) 2 ≠ 35/100 := by
      intro he; rw [he] at hge; norm_num at hge
    have h4 : roundDec (d / sheetDiag Size.A3) 2 ≠ 25/100 := by
      intro he; rw [he] at hge; norm_num at hge
    have h5 : roundDec (d / sheetDiag Size.A3) 2 ≠ 18/100 := by
      intro he; rw [he] at hge; norm_num at hge
    rw [classifyBands, if_neg h1, if_neg h2, if_neg h3, if_neg h4, if_neg h5]
    rfl

theorem same_size_upgrade_witness :
    classify 1 Size.A4 (fun _ => 1) false =
      (classifyBands 1 1 false).map
        (fun l => (l, paperWidth Size.A3, paperHeight Size.A3)) ∧
    classify 1 Size.A3 (fun _ => 1) false =
      .error (.unsupportedPageSize 1 1) :=
  ⟨(same_size_upgrade 1 (fun _ => 1) false).1
      (by norm_num [roundDec, roundHalfEven]),
    (same_size_upgrade 1 (fun _ => 1) false).2
      (by norm_num [roundDec, roundHalfEven])⟩

/-- C3: for every `n ≥ 1` and `m ≥ 1`, `create_matrix n m` returns exactly
`n*m` coordinate pairs `[column, row]` in which the row index decreases from
`m-1` to `0` in the outer loop and the column index increases from `0` to
`n-1` in the inner loop (position `k` holds `(k % n, m - 1 - k / n)`), so
every grid cell `(j, i)` with `j < n` and `i < m` appears exactly once. -/
theorem create_matrix_order (n m : ℕ) (hn : 1 ≤ n) (hm : 1 ≤ m) :
    (create_matrix n m).length = n * m ∧
    (∀ k, k < n * m →
      (create_matrix n m).getD k (0, 0) = (k % n, m - 1 - k / n)) ∧
    (create_matrix n m).Nodup ∧
    (∀ j i : ℕ, (j, i) ∈ create_matrix n m ↔ j < n ∧ i < m) := by
  refine ⟨create_matrix_length n m, ?_, create_matrix_nodup n m, ?_⟩
  · intro k hk
    rw [create_matrix_eq_map n m hn, getD_map_range _ _ _ _ hk]
  · intro j i
    exact create_matrix_mem_iff n m (j, i)

theorem create_matrix_order_witness :
    (create_matrix 4 2).length = 4 * 2 ∧
    (create_matrix 4 2).getD 5 (0, 0) = (5 % 4, 2 - 1 - 5 / 4) := by
  refine ⟨(create_matrix_order 4 2 (by decide) (by decide)).1, ?_⟩
  exact (create_matrix_order 4 2 (by decide) (by decide)).2.1 5 (by decide)

/-- C4: in normal mode, for every input of `p ≥ 1` pages with tiling order
of length `L ≥ 1`, the `k`-th source page (0-based) is composited exactly
once, at offset `(tilingOrder[k mod L].column * pageWidth,
tilingOrder[k mod L].row * pageHeight)` (the flattened placements are
exactly the pages `0..p-1` in order, each with that offset), so the total
number of pages placed across all output sheets equals the input count. -/
theorem normal_mode_placements (p : ℕ) (hp : 1 ≤ p)
    (indices : List (ℕ × ℕ)) (hL : 1 ≤ indices.length) (pw ph : ℤ) :
    (composeNormal p indices pw ph).flatten =
      (List.range p).map (fun k =>
        (⟨k, ((indices.getD (k % indices.length) (0, 0)).1 : ℤ) * pw,
            ((indices.getD (k % indices.length) (0, 0)).2 : ℤ) * ph⟩ :
          Placement)) ∧
    ((composeNormal p indices pw ph).map List.length).sum = p := by
  have hflat := composeNormal_flatten indices pw ph hL p
  constructor
  · rw [hflat]
    rfl
  · rw [← List.length_flatten, hflat, List.length_map, List.length_range]

theorem normal_mode_placements_witness :
    (composeNormal 3 (create_matrix 2 1) 5 7).flatten =
      (List.range 3).map (fun k =>
        (⟨k, (((create_matrix 2 1).getD (k % (create_matrix 2 1).length)
                (0, 0)).1 : ℤ) * 5,
            (((create_matrix 2 1).getD (k % (create_matrix 2 1).length)
                (0, 0)).2 : ℤ) * 7⟩ : Placement)) ∧
    ((composeNormal 3 (create_matrix 2 1) 5 7).map List.length).sum = 3 :=
  normal_mode_placements 3 (by decide) (create_matrix 2 1) (by decide) 5 7

/-- C5: for every normal-mode run with `p ≥ 1` pages and a grid of
`n × m` cells, the number of output sheets is exactly
`ceil(p / (n*m))`, and no emitted sheet has zero placed pages (in
particular no empty trailing sheet when `p` is an exact multiple). -/
theorem normal_mode_sheet_count (p n m : ℕ) (hp : 1 ≤ p) (hn : 1 ≤ n)
    (hm : 1 ≤ m) (pw ph : ℤ) :
    (composeNormal p (create_matrix n m) pw ph).length =
      (p + n * m - 1) / (n * m) ∧
    ∀ sh ∈ composeNormal p (create_matrix n m) pw ph, sh ≠ [] := by
  have hL : 0 < (create_matrix n m).length := by
    rw [create_matrix_length]
    exact Nat.mul_pos hn hm
  obtain ⟨h1, h2⟩ := composeNormal_sheet_lengths (create_matrix n m) pw ph hL p hp
  refine ⟨?_, h2⟩
  rw [h1, create_matrix_length]

theorem normal_mode_sheet_count_witness :
    (composeNormal 3 (create_matrix 2 1) 5 7).length = (3 + 2 * 1 - 1) / (2 * 1) ∧
    (composeNormal 4 (create_matrix 2 1) 5 7).length = (4 + 2 * 1 - 1) / (2 * 1) :=
  ⟨(normal_mode_sheet_count 3 2 1 (by decide) (by decide) (by decide) 5 7).1,
    (normal_mode_sheet_count 4 2 1 (by decide) (by decide) (by decide) 5 7).1⟩

/-- C6: for every run with fill mode on and exactly one input page, the
output is exactly one sheet, and every one of the `n × m` grid cells
receives a copy of page 0 at its cell offset
`(column * pageWidth, row * pageHeight)`. -/
theorem fill_mode_single_page (n m : ℕ) (hn : 1 ≤ n) (hm : 1 ≤ m) (pw ph : ℤ) :
    (compose true 1 (create_matrix n m) pw ph).length = 1 ∧
    compose true 1 (create_matrix n m) pw ph =
      [(create_matrix n m).map
        (fun c => ⟨0, (c.1 : ℤ) * pw, (c.2 : ℤ) * ph⟩)] ∧
    (∀ j i : ℕ, j < n → i < m →
      (⟨0, (j : ℤ) * pw, (i : ℤ) * ph⟩ : Placement) ∈
        (compose true 1 (create_matrix n m) pw ph).flatten) := by
  have hc : compose true 1 (create_matrix n m) pw ph =
      composeFill (create_matrix n m) pw ph := by
    rw [compose, if_pos ⟨rfl, rfl⟩]
  refine ⟨by rw [hc]; rfl, by rw [hc]; rfl, ?_⟩
  intro j i hj hi
  rw [hc]
  simp only [composeFill, List.flatten_cons, List.flatten_nil, List.append_nil]
  exact List.mem_map.mpr
    ⟨(j, i), (create_matrix_mem_iff n m (j, i)).mpr ⟨hj, hi⟩, rfl⟩

theorem fill_mode_single_page_witness :
    (compose true 1 (create_matrix 2 2) 5 7).length = 1 ∧
    (⟨0, (1 : ℤ) * 5, (1 : ℤ) * 7⟩ : Placement) ∈
      (compose true 1 (create_matrix 2 2) 5 7).flatten :=
  ⟨(fill_mode_single_page 2 2 (by decide) (by decide) 5 7).1,
    (fill_mode_single_page 2 2 (by decide) (by decide) 5 7).2.2 1 1
      (by decide) (by decide)⟩

/-- C7: for every input with more than one page, a run with fill mode on
produces output identical to the run with fill mode off on the same input
(fill mode is silently disabled and normal mode is used). -/
theorem fill_mode_degrades (pages : List (ℚ × ℚ)) (h : 1 < pages.length)
    (new_size : String) (sqrtFn : ℚ → ℚ) (fp : Bool) :
    pdf_merger pages new_size sqrtFn true fp =
      pdf_merger pages new_size sqrtFn false fp := by
  cases pages with
  | nil => simp at h
  | cons p0 rest =>
    have hne : (p0 :: rest).length ≠ 1 := by
      simp only [List.length_cons]
      simp only [List.length_cons] at h
      omega
    have hcomp : ∀ (indices : List (ℕ × ℕ)) (pw ph : ℤ),
        compose true (p0 :: rest).length indices pw ph =
          compose false (p0 :: rest).length indices pw ph := by
      intro indices pw ph
      rw [compose, compose, if_neg (fun hc => hne hc.2),
        if_neg (fun hc => Bool.noConfusion hc.1)]
    simp only [pdf_merger]
    cases hval : validatePages (p0 :: rest) (roundHalfEven p0.1)
        (roundHalfEven p0.2) 0 with
    | some e => rfl
    | none =>
      cases hcls : classify
          (sqrtFn ((roundHalfEven p0.1 : ℚ) ^ 2 + (roundHalfEven p0.2 : ℚ) ^ 2))
          (parseSize new_size)
          (fun s => sqrtFn ((paperWidth s : ℚ) ^ 2 + (paperHeight s : ℚ) ^ 2))
          fp with
      | error e => rfl
      | ok v =>
        obtain ⟨layout, nw, nh⟩ := v
        simp only [hcomp]

theorem fill_mode_degrades_witness :
    pdf_merger [((595 : ℚ), 842), ((595 : ℚ), 842)] "A4" (fun _ => 1) true
        false =
      pdf_merger [((595 : ℚ), 842), ((595 : ℚ), 842)] "A4" (fun _ => 1) false
        false :=
  fill_mode_degrades [((595 : ℚ), 842), ((595 : ℚ), 842)] (by decide) "A4"
    (fun _ => 1) false

/-- C8: validation is eager and atomic — an empty page sequence fails with
the empty-document error, and if any page's rounded dimensions differ from
the first page's, the call fails with an error carrying the (first)
offending page's 1-based index and both dimension pairs; in both cases the
result is an error, so no output sheets are produced. -/
theorem eager_validation (pages : List (ℚ × ℚ)) (new_size : String)
    (sqrtFn : ℚ → ℚ) (fill fp : Bool) :
    (pages = [] →
      pdf_merger pages new_size sqrtFn fill fp = .error .emptyDocument) ∧
    (∀ p0 rest, pages = p0 :: rest →
      (∃ q ∈ pages, roundHalfEven q.1 ≠ roundHalfEven p0.1 ∨
        roundHalfEven q.2 ≠ roundHalfEven p0.2) →
      ∃ j, j < pages.length ∧
        (roundHalfEven (pages.getD j (0, 0)).1 ≠ roundHalfEven p0.1 ∨
          roundHalfEven (pages.getD j (0, 0)).2 ≠ roundHalfEven p0.2) ∧
        pdf_merger pages new_size sqrtFn fill fp =
          .error (.inconsistentPageSize (j + 1)
            (roundHalfEven (pages.getD j (0, 0)).1)
            (roundHalfEven (pages.getD j (0, 0)).2)
            (roundHalfEven p0.1) (roundHalfEven p0.2))) := by
  constructor
  · rintro rfl
    rfl
  · rintro p0 rest rfl hex
    obtain ⟨j, hj, hm, heq⟩ :=
      validatePages_first_mismatch (roundHalfEven p0.1) (roundHalfEven p0.2)
        (p0 :: rest) 0 hex
    refine ⟨j, hj, hm, ?_⟩
    simp only [pdf_merger, heq, Nat.zero_add]

theorem eager_validation_witness :
    pdf_merger ([] : List (ℚ × ℚ)) "A4" (fun _ => 0) false false =
      .error .emptyDocument ∧
    (∃ j, j < ([((1 : ℚ), 1), ((3 : ℚ), 3)] : List (ℚ × ℚ)).length ∧
      (roundHalfEven (([((1 : ℚ), 1), ((3 : ℚ), 3)] :
          List (ℚ × ℚ)).getD j (0, 0)).1 ≠ roundHalfEven (1 : ℚ) ∨
        roundHalfEven (([((1 : ℚ), 1), ((3 : ℚ), 3)] :
          List (ℚ × ℚ)).getD j (0, 0)).2 ≠ roundHalfEven (1 : ℚ)) ∧
      pdf_merger [((1 : ℚ), 1), ((3 : ℚ), 3)] "A4" (fun _ => 0) false false =
        .error (.inconsistentPageSize (j + 1)
          (roundHalfEven (([((1 : ℚ), 1), ((3 : ℚ), 3)] :
            List (ℚ × ℚ)).getD j (0, 0)).1)
          (roundHalfEven (([((1 : ℚ), 1), ((3 : ℚ), 3)] :
            List (ℚ × ℚ)).getD j (0, 0)).2)
          (roundHalfEven (1 : ℚ)) (roundHalfEven (1 : ℚ)))) := by
  constructor
  · exact (eager_validation [] "A4" (fun _ => 0) false false).1 rfl
  · exact (eager_validation [((1 : ℚ), 1), ((3 : ℚ), 3)] "A4" (fun _ => 0)
      false false).2 ((1 : ℚ), 1) [((3 : ℚ), 3)] rfl
      ⟨((3 : ℚ), 3), by simp, Or.inl (by norm_num [roundHalfEven])⟩

/-- C9: for every target-size string other than exactly `"A4"` (including
`"a4"`, `"Letter"`, or the empty string), `pdf_merger` behaves identically
to a run with size `"A3"`; the size argument is never rejected. -/
theorem size_fallback_to_A3 (s : String) (hs : s ≠ "A4")
    (pages : List (ℚ × ℚ)) (sqrtFn : ℚ → ℚ) (fill fp : Bool) :
    pdf_merger pages s sqrtFn fill fp = pdf_merger pages "A3" sqrtFn fill fp := by
  have hp : parseSize s = parseSize "A3" := by
    rw [parseSize, parseSize, if_neg hs, if_neg (by decide)]
  cases pages with
  | nil => rfl
  | cons p0 rest => simp only [pdf_merger, hp]

theorem size_fallback_to_A3_witness :
    pdf_merger [((595 : ℚ), 842)] "a4" (fun _ => 0) false false =
      pdf_merger [((595 : ℚ), 842)] "A3" (fun _ => 0) false false ∧
    pdf_merger [((595 : ℚ), 842)] "Letter" (fun _ => 0) false false =
      pdf_merger [((595 : ℚ), 842)] "A3" (fun _ => 0) false false :=
  ⟨size_fallback_to_A3 "a4" (by decide) [((595 : ℚ), 842)] (fun _ => 0)
      false false,
    size_fallback_to_A3 "Letter" (by decide) [((595 : ℚ), 842)] (fun _ => 0)
      false false⟩

/-- C10, counterexample: two pages whose raw media-box widths differ by
`0.2 < 0.5` points (`595.4` and `595.6`) do NOT pass validation as
identical — they round to different integers (595 and 596), so the call
fails with an inconsistent-page-size error. -/
theorem rounding_halfpoint_counterexample :
    ((5956 : ℚ)/10 - (5954 : ℚ)/10 < 1/2 ∧
      (0 : ℚ) ≤ (5956 : ℚ)/10 - (5954 : ℚ)/10) ∧
    pdf_merger [((5954 : ℚ)/10, 842), ((5956 : ℚ)/10, 842)] "A4" (fun _ => 0)
        false false =
      .error (.inconsistentPageSize 2 596 842 595 842) := by
  refine ⟨by norm_num, ?_⟩
  have h1 : roundHalfEven ((5954 : ℚ)/10) = 595 := by
    norm_num [roundHalfEven]
  have h2 : roundHalfEven ((5956 : ℚ)/10) = 596 := by
    norm_num [roundHalfEven]
  have h3 : roundHalfEven ((842 : ℚ)) = 842 := by norm_num [roundHalfEven]
  simp [pdf_merger, validatePages, h1, h2, h3]

/-- C10, amended: page dimensions are rounded to the nearest integer point
(ties to even) before use — validation compares the rounded values, so
pages pass as identical exactly when each page's raw dimensions round to
the first page's rounded dimensions; and the whole run depends only on the
rounded dimensions (replacing every raw dimension by its rounded value
leaves the output unchanged, so diagonals and placement offsets use the
first page's rounded dimensions, never the raw values). -/
theorem rounded_dims_used :
    (∀ (ps : List (ℚ × ℚ)) (pw ph : ℤ) (i : ℕ),
      validatePages ps pw ph i = none ↔
        ∀ q ∈ ps, roundHalfEven q.1 = pw ∧ roundHalfEven q.2 = ph) ∧
    (∀ (pages : List (ℚ × ℚ)) (new_size : String) (sqrtFn : ℚ → ℚ)
        (fill fp : Bool),
      pdf_merger pages new_size sqrtFn fill fp =
        pdf_merger (pages.map (fun q =>
          ((roundHalfEven q.1 : ℚ), (roundHalfEven q.2 : ℚ))))
          new_size sqrtFn fill fp) := by
  constructor
  · intro ps pw ph i
    exact validatePages_none_iff pw ph ps i
  · intro pages new_size sqrtFn fill fp
    cases pages with
    | nil => rfl
    | cons p0 rest =>
      have hv := validatePages_map_round (roundHalfEven p0.1)
        (roundHalfEven p0.2) (p0 :: rest) 0
      simp only [List.map_cons, roundHalfEven_intCast] at hv
      simp only [pdf_merger, List.map_cons, roundHalfEven_intCast,
        List.length_map, List.length_cons, hv]

theorem rounded_dims_used_witness :
    pdf_merger [((5954 : ℚ)/10, 842)] "A4" (fun _ => 0) false false =
      pdf_merger ([((5954 : ℚ)/10, 842)].map (fun q =>
        ((roundHalfEven q.1 : ℚ), (roundHalfEven q.2 : ℚ)))) "A4"
        (fun _ => 0) false false :=
  rounded_dims_used.2 [((5954 : ℚ)/10, 842)] "A4" (fun _ => 0) false false

end PdfMerge
